import Mathlib

/-!
Verification of the LSB image-steganography codec
(`src/image_steganography/core.py` and `src/image_steganography/utils.py`).

The Python fallback codec (`_to_bits`, `_from_bits`, `_fallback_encode`,
`_fallback_decode`) and the facade functions (`encode_message_to_image`,
`decode_message_from_image`, `ensure_png`) are shallowly embedded below.
An image canvas is a rectangular grid of RGBA pixels stored row-major
(row 0 left-to-right, then row 1, ...), matching the iteration order
`for y in range(height): for x in range(width): pixels[x, y]` of the source.
Python's arbitrary-precision non-negative ints are modelled by `Nat`;
bitwise operators are kept as in the source (`&&&`, `|||`, `>>>`, `<<<`).
Python's builtin UTF-8 string codec (`str.encode("utf-8")` /
`bytes.decode("utf-8")`, strict mode per RFC 3629) is modelled explicitly,
since the decoder's behaviour on invalid bytes decides error cases.
-/

namespace ImageSteg

/-- An RGBA pixel `(r, g, b, a)`: the channel tuple PIL yields for an image
converted with `convert("RGBA")`. -/
abbrev Pixel := Nat × Nat × Nat × Nat

/-- In-memory image: width, height, and the pixel grid in row-major order
(pixel `(x, y)` sits at index `y * width + x`). -/
structure Canvas where
  width : Nat
  height : Nat
  pixels : List Pixel
deriving DecidableEq

/-- The domain error `SteganographyError`, split by the distinct messages the
source raises, plus the `OverflowError` that `int.to_bytes(4, "big")` raises
for values `≥ 2^32`.  (`"Cover image not found"` is file I/O, outside the
codec model.) -/
inductive StegError where
  /-- Error `"Message must not be empty"` (the spec's `InvalidInput`). -/
  | emptyMessage
  /-- Error `"Message is too large for this image in fallback mode."`
  (the spec's `CapacityExceeded`). -/
  | tooLarge
  /-- Error `"No hidden message found or unable to decode."`
  (the spec's `NoMessageFound`). -/
  | noMessage
  /-- Python `OverflowError` from `len(message).to_bytes(4, "big")` when the
  byte length does not fit in 4 bytes. -/
  | overflow
deriving DecidableEq

/-- The magic header `_HEADER = b"IMSG\x00"`. -/
def HEADER : List Nat := [0x49, 0x4D, 0x53, 0x47, 0x00]

/-- Bits of one byte, most-significant first:
`for i in range(8): yield (byte >> (7 - i)) & 1`. -/
def byteBits (b : Nat) : List Nat :=
  (List.range 8).map fun i => b >>> (7 - i) &&& 1

/-- Python `_to_bits(data)`: concatenation of the MSB-first bits of each byte. -/
def toBits : List Nat → List Nat
  | [] => []
  | b :: rest => byteBits b ++ toBits rest

/-- Loop body state of `_from_bits`: `acc` is the partial byte `b`,
`cnt` counts how many bits of the current byte are already in `acc`
(Python tests `i % 8 == 0` with `i` the 1-based index). -/
def fromBitsAux : List Nat → Nat → Nat → List Nat
  | [], _, _ => []
  | bit :: rest, acc, cnt =>
    let acc' := (acc <<< 1) ||| bit
    if cnt = 7 then acc' :: fromBitsAux rest 0 0
    else fromBitsAux rest acc' (cnt + 1)

/-- Python `_from_bits(bits)`: regroup bits into bytes of 8, MSB first; a trailing
group of fewer than 8 bits is never appended to the output. -/
def fromBits (bits : List Nat) : List Nat :=
  fromBitsAux bits 0 0

/-- Big-endian `n.to_bytes(4, "big")` for `n < 2^32` (the caller guards the overflow). -/
def toBytesBE (n : Nat) : List Nat :=
  [n / 2 ^ 24 % 256, n / 2 ^ 16 % 256, n / 2 ^ 8 % 256, n % 256]

/-- Python `int.from_bytes(bs, "big")`. -/
def fromBytesBE (bs : List Nat) : Nat :=
  bs.foldl (fun acc b => acc * 256 + b) 0

/-- Python `c & ~1` for a non-negative int: clear the low-order bit. -/
def clearLsb (c : Nat) : Nat := (c >>> 1) <<< 1

/-- The write `(channel_value & ~1) | bit`: overwrite the low-order bit of a channel. -/
def setLsb (c bit : Nat) : Nat := clearLsb c ||| bit

/-- The pixel loop of `_fallback_encode`: walk pixels in row-major order,
writing one bit into the LSB of each of r, g, b in that fixed order.  When
the bit iterator is exhausted mid-pixel (`StopIteration`), the channels
already reassigned in this iteration keep their new value, the rest keep the
old one, and all later pixels are untouched. -/
def embedPixels : List Pixel → List Nat → List Pixel
  | ps, [] => ps
  | [], _ :: _ => []
  | (r, g, bl, a) :: ps, [b0] => (setLsb r b0, g, bl, a) :: ps
  | (r, g, bl, a) :: ps, [b0, b1] => (setLsb r b0, setLsb g b1, bl, a) :: ps
  | (r, g, bl, a) :: ps, b0 :: b1 :: b2 :: rest =>
    (setLsb r b0, setLsb g b1, setLsb bl b2, a) :: embedPixels ps rest

/-- The pixel loop of `_fallback_decode`:
`bits.extend([r & 1, g & 1, b & 1])` over pixels in row-major order. -/
def readBits : List Pixel → List Nat
  | [] => []
  | (r, g, bl, _) :: ps => (r &&& 1) :: (g &&& 1) :: (bl &&& 1) :: readBits ps

/-- The r, g, b channel values of a pixel list, flattened in the writer's
visiting order (row-major pixels, channels in order red, green, blue). -/
def channels : List Pixel → List Nat
  | [] => []
  | (r, g, bl, _) :: ps => r :: g :: bl :: channels ps

/-- The alpha channel values of a pixel list, in row-major order. -/
def alphas : List Pixel → List Nat
  | [] => []
  | (_, _, _, a) :: ps => a :: alphas ps

/-- Python `_fallback_encode(cover, message_bytes, out)`.  The first component is
the final state of the in-memory image `img` (Python mutates the loaded
pixels in place); the second is the outcome: `.ok stego` means the image was
saved to `out`, `.error e` means the exception `e` was raised (before any
pixel write, so the image state still equals the cover). -/
def fallbackEncode (cover : Canvas) (msgBytes : List Nat) :
    Canvas × Except StegError Canvas :=
  if 2 ^ 32 ≤ msgBytes.length then (cover, .error .overflow)
  else
    let payload := HEADER ++ toBytesBE msgBytes.length ++ msgBytes
    let bits := toBits payload
    let capacity := cover.width * cover.height * 3
    if capacity < bits.length then (cover, .error .tooLarge)
    else
      let stego : Canvas := ⟨cover.width, cover.height, embedPixels cover.pixels bits⟩
      (stego, .ok stego)

/-- All LSBs read from the stego canvas (`bits` in `_fallback_decode`). -/
def canvasBits (c : Canvas) : List Nat := readBits c.pixels

/-- The constant `header_len_bits = (len(_HEADER) + 4) * 8`, i.e. 72. -/
def headerLenBits : Nat := (HEADER.length + 4) * 8

/-- The slice `header_bytes = _from_bits(bits[:header_len_bits])`. -/
def headerBytes (c : Canvas) : List Nat :=
  fromBits ((canvasBits c).take headerLenBits)

/-- The length field `msg_len = int.from_bytes(header_bytes[len(_HEADER):len(_HEADER)+4], "big")`. -/
def declaredLen (c : Canvas) : Nat :=
  fromBytesBE (((headerBytes c).drop HEADER.length).take 4)

/-- The body `msg_bytes = _from_bits(bits[header_len_bits : header_len_bits + msg_len*8])`. -/
def bodyBytes (c : Canvas) : List Nat :=
  fromBits (((canvasBits c).drop headerLenBits).take (declaredLen c * 8))

/-- A Unicode scalar value: what a Python `str` character must be for
`str.encode("utf-8")` to succeed (lone surrogates raise). -/
def ScalarCP (c : Nat) : Prop := c < 0x110000 ∧ (c < 0xD800 ∨ 0xE000 ≤ c)

instance (c : Nat) : Decidable (ScalarCP c) := by unfold ScalarCP; infer_instance

/-- Modelled from Python's builtin `str.encode("utf-8")`, one character:
the standard 1- to 4-byte UTF-8 encoding of a scalar code point. -/
def utf8EncodeChar (c : Nat) : List Nat :=
  if c < 0x80 then [c]
  else if c < 0x800 then [0xC0 + c / 64, 0x80 + c % 64]
  else if c < 0x10000 then
    [0xE0 + c / 4096, 0x80 + c / 64 % 64, 0x80 + c % 64]
  else
    [0xF0 + c / 0x40000, 0x80 + c / 4096 % 64, 0x80 + c / 64 % 64, 0x80 + c % 64]

/-- Modelled from Python's builtin `str.encode("utf-8")`: the concatenated
encodings of the string's code points (a `str` is a list of code points). -/
def utf8Encode : List Nat → List Nat
  | [] => []
  | c :: cs => utf8EncodeChar c ++ utf8Encode cs

/-- Allowed lower bound for the first continuation byte of a 3-byte sequence
(0xE0 forbids the overlong range, so its continuation starts at 0xA0). -/
def lead3Lo (b0 : Nat) : Nat := if b0 = 0xE0 then 0xA0 else 0x80

/-- Allowed upper bound for the first continuation byte of a 3-byte sequence
(0xED forbids the surrogate range, so its continuation stops at 0x9F). -/
def lead3Hi (b0 : Nat) : Nat := if b0 = 0xED then 0x9F else 0xBF

/-- Allowed lower bound for the first continuation byte of a 4-byte sequence
(0xF0 forbids the overlong range, so its continuation starts at 0x90). -/
def lead4Lo (b0 : Nat) : Nat := if b0 = 0xF0 then 0x90 else 0x80

/-- Allowed upper bound for the first continuation byte of a 4-byte sequence
(0xF4 caps code points at U+10FFFF, so its continuation stops at 0x8F). -/
def lead4Hi (b0 : Nat) : Nat := if b0 = 0xF4 then 0x8F else 0xBF

/-- Streaming state of the UTF-8 decoder: `pending` is how many continuation
bytes of the current sequence are still expected, `acc` the code point
accumulated so far, and `lo`/`hi` the allowed range of the next byte
(meaningful only when `pending > 0`). -/
def utf8DecodeAux : List Nat → Nat → Nat → Nat → Nat → Option (List Nat)
  | [], pending, _, _, _ => if pending = 0 then some [] else none
  | b :: rest, pending, acc, lo, hi =>
    if pending = 0 then
      if b < 0x80 then (utf8DecodeAux rest 0 0 0x80 0xBF).map (b :: ·)
      else if b < 0xC2 then none
      else if b ≤ 0xDF then utf8DecodeAux rest 1 (b - 0xC0) 0x80 0xBF
      else if b ≤ 0xEF then utf8DecodeAux rest 2 (b - 0xE0) (lead3Lo b) (lead3Hi b)
      else if b ≤ 0xF4 then utf8DecodeAux rest 3 (b - 0xF0) (lead4Lo b) (lead4Hi b)
      else none
    else if lo ≤ b ∧ b ≤ hi then
      if pending = 1 then
        (utf8DecodeAux rest 0 0 0x80 0xBF).map ((acc * 64 + (b - 0x80)) :: ·)
      else utf8DecodeAux rest (pending - 1) (acc * 64 + (b - 0x80)) 0x80 0xBF
    else none

/-- Modelled from Python's builtin `bytes.decode("utf-8")` (strict, RFC 3629):
`some` list of code points on success, `none` on `UnicodeDecodeError`.
Overlong forms, surrogates, code points above `U+10FFFF`, stray continuation
bytes and truncated sequences are all rejected, exactly as CPython does. -/
def utf8Decode (l : List Nat) : Option (List Nat) :=
  utf8DecodeAux l 0 0 0x80 0xBF

/-- Python `_fallback_decode(stego)`: returns the decoded message string (as a list
of code points; `[]` is Python's `""`).  An absent marker or a
`UnicodeDecodeError` both yield `""`. -/
def fallbackDecode (c : Canvas) : List Nat :=
  if HEADER.isPrefixOf (headerBytes c) then
    match utf8Decode (bodyBytes c) with
    | some s => s
    | none => []
  else []

/-- Python `decode_message_from_image(stego_image)`: raises the
`"No hidden message found or unable to decode."` error on a falsy (empty)
message (the file-existence check is I/O, outside the model). -/
def decode_message_from_image (c : Canvas) : Except StegError (List Nat) :=
  let msg := fallbackDecode c
  if msg = [] then .error .noMessage else .ok msg

/-- A `pathlib.Path` reduced to what `ensure_png` inspects: the part before
the extension (`stem`, with any directories) and the extension `suffix`
(leading dot included, `""` if none). -/
structure PyPath where
  stem : String
  suffix : String
deriving DecidableEq

/-- Python `str.lower()` restricted to its ASCII action (the only action
that matters for a comparison against the ASCII literal ".png"): lower each
character of the string. -/
def pyLower (s : String) : String := ⟨s.data.map Char.toLower⟩

/-- Python `ensure_png(path)` from `utils.py`: if `p.suffix.lower() != ".png"`,
return `p.with_suffix(".png")`, else return `p` unchanged. -/
def ensure_png (p : PyPath) : PyPath :=
  if pyLower p.suffix ≠ ".png" then ⟨p.stem, ".png"⟩ else p

/-- Python `encode_message_to_image(cover_image, message, output_path)`.
The message is the Python `str` as a list of code points.  The first
component is the final state of the in-memory cover image; the second is
`.ok (stego, out)` — the stego canvas written to the returned path `out` —
or the raised error.  (The cover-existence check is I/O, outside the model;
the `stegano`-library branch is the absent optional dependency, so the
fallback branch is the codec, as the spec's design notes prescribe.) -/
def encode_message_to_image (cover : Canvas) (message : List Nat)
    (output_path : PyPath) : Canvas × Except StegError (Canvas × PyPath) :=
  if message = [] then (cover, .error .emptyMessage)
  else
    let out := ensure_png output_path
    match fallbackEncode cover (utf8Encode message) with
    | (img, .ok stego) => (img, .ok (stego, out))
    | (img, .error e) => (img, .error e)

deriving instance DecidableEq for Except

/-- Pack a bit list into pixels, three LSBs per pixel: convenient construction
of concrete carrier canvases for the theorems below. -/
def bitsToPixels : List Nat → List Pixel
  | b0 :: b1 :: b2 :: rest => (b0, b1, b2, 255) :: bitsToPixels rest
  | _ => []

/-! ### Arithmetic facts about the bit-level primitives -/

theorem two_mul_lor (a b : Nat) (hb : b < 2) : 2 * a ||| b = 2 * a + b := by
  interval_cases b
  · simp
  · apply Nat.eq_of_testBit_eq
    intro i
    cases i with
    | zero =>
      simp [Nat.testBit_lor, Nat.testBit_zero]
      omega
    | succ n =>
      rw [Nat.testBit_lor, Nat.testBit_succ, Nat.testBit_succ, Nat.testBit_succ]
      have h1 : 2 * a / 2 = a := by omega
      have h2 : (2 * a + 1) / 2 = a := by omega
      have h3 : (1 : Nat) / 2 = 0 := by omega
      rw [h1, h2, h3, Nat.zero_testBit, Bool.or_false]

theorem clearLsb_eq (c : Nat) : clearLsb c = 2 * (c / 2) := by
  unfold clearLsb
  rw [Nat.shiftRight_eq_div_pow, Nat.shiftLeft_eq]
  ring

theorem setLsb_eq (c bit : Nat) (hb : bit < 2) : setLsb c bit = 2 * (c / 2) + bit := by
  unfold setLsb
  rw [clearLsb_eq, two_mul_lor _ _ hb]

theorem setLsb_and_one (c bit : Nat) (hb : bit < 2) : setLsb c bit &&& 1 = bit := by
  rw [setLsb_eq c bit hb, Nat.and_one_is_mod]
  omega

theorem and_one_lt_two (x : Nat) : x &&& 1 < 2 := by
  rw [Nat.and_one_is_mod]
  omega

theorem accStepMod (a y : Nat) : (a <<< 1) ||| (y % 2) = 2 * a + y % 2 := by
  rw [Nat.shiftLeft_eq, pow_one, Nat.mul_comm a 2,
    two_mul_lor _ _ (Nat.mod_lt _ (by omega))]

/-! ### The bit planner: `_to_bits` / `_from_bits` -/

theorem byteBits_def (b : Nat) :
    byteBits b = [b >>> 7 &&& 1, b >>> 6 &&& 1, b >>> 5 &&& 1, b >>> 4 &&& 1,
      b >>> 3 &&& 1, b >>> 2 &&& 1, b >>> 1 &&& 1, b >>> 0 &&& 1] := rfl

theorem byteBits_length (b : Nat) : (byteBits b).length = 8 := rfl

theorem byteBits_lt_two (b : Nat) : ∀ x ∈ byteBits b, x < 2 := by
  rw [byteBits_def]
  intro x hx
  simp only [List.mem_cons, List.not_mem_nil, or_false] at hx
  rcases hx with h | h | h | h | h | h | h | h <;> rw [h] <;> exact and_one_lt_two _

theorem toBits_append (l₁ l₂ : List Nat) :
    toBits (l₁ ++ l₂) = toBits l₁ ++ toBits l₂ := by
  induction l₁ with
  | nil => rfl
  | cons b rest ih => simp [toBits, ih]

theorem toBits_length (l : List Nat) : (toBits l).length = 8 * l.length := by
  induction l with
  | nil => rfl
  | cons b rest ih => simp [toBits, ih, byteBits_length]; ring

theorem toBits_lt_two (l : List Nat) : ∀ x ∈ toBits l, x < 2 := by
  induction l with
  | nil => simp [toBits]
  | cons b rest ih =>
    intro x hx
    rw [toBits, List.mem_append] at hx
    rcases hx with h | h
    · exact byteBits_lt_two b x h
    · exact ih x h

set_option maxHeartbeats 1000000 in
theorem fromBitsAux_byte (b : Nat) (rest : List Nat) :
    fromBitsAux (byteBits b ++ rest) 0 0 = (b % 256) :: fromBitsAux rest 0 0 := by
  simp only [byteBits_def, List.cons_append, List.nil_append]
  rw [fromBitsAux, if_neg (by omega)]
  rw [fromBitsAux, if_neg (by omega)]
  rw [fromBitsAux, if_neg (by omega)]
  rw [fromBitsAux, if_neg (by omega)]
  rw [fromBitsAux, if_neg (by omega)]
  rw [fromBitsAux, if_neg (by omega)]
  rw [fromBitsAux, if_neg (by omega)]
  rw [fromBitsAux, if_pos rfl]
  congr 1
  simp only [Nat.and_one_is_mod, Nat.shiftRight_eq_div_pow, accStepMod]
  omega

theorem fromBitsAux_short (bits : List Nat) (acc cnt : Nat)
    (h : bits.length + cnt < 8) : fromBitsAux bits acc cnt = [] := by
  induction bits generalizing acc cnt with
  | nil => rfl
  | cons bit rest ih =>
    rw [fromBitsAux]
    simp only [List.length_cons] at h
    rw [if_neg (by omega)]
    exact ih _ _ (by omega)

theorem fromBits_short (bits : List Nat) (h : bits.length < 8) : fromBits bits = [] :=
  fromBitsAux_short bits 0 0 (by omega)

theorem fromBits_toBits_append (data rest : List Nat) :
    fromBits (toBits data ++ rest) = data.map (· % 256) ++ fromBits rest := by
  induction data with
  | nil => rfl
  | cons b bs ih =>
    rw [toBits, List.append_assoc]
    show fromBitsAux (byteBits b ++ (toBits bs ++ rest)) 0 0 = _
    rw [fromBitsAux_byte]
    show (b % 256) :: fromBits (toBits bs ++ rest) = _
    rw [ih, List.map_cons, List.cons_append]

theorem map_mod_256_eq_self (l : List Nat) (h : ∀ b ∈ l, b < 256) :
    l.map (· % 256) = l := by
  induction l with
  | nil => rfl
  | cons b bs ih =>
    rw [List.map_cons, ih (fun x hx => h x (List.mem_cons_of_mem b hx)),
      Nat.mod_eq_of_lt (h b (List.mem_cons_self b bs))]

theorem fromBits_toBits (data : List Nat) (h : ∀ b ∈ data, b < 256) :
    fromBits (toBits data) = data := by
  have := fromBits_toBits_append data []
  rw [List.append_nil] at this
  rw [this, map_mod_256_eq_self data h]
  show data ++ fromBitsAux [] 0 0 = data
  rw [fromBitsAux, List.append_nil]

theorem fromBytesBE_toBytesBE (n : Nat) (h : n < 2 ^ 32) :
    fromBytesBE (toBytesBE n) = n := by
  simp only [toBytesBE, fromBytesBE, List.foldl]
  omega

theorem toBytesBE_lt_256 (n : Nat) : ∀ b ∈ toBytesBE n, b < 256 := by
  intro b hb
  simp only [toBytesBE, List.mem_cons, List.not_mem_nil, or_false] at hb
  rcases hb with h | h | h | h <;> rw [h] <;> omega

theorem HEADER_lt_256 : ∀ b ∈ HEADER, b < 256 := by decide

/-! ### The pixel channel writer/reader -/

theorem embedPixels_length (ps : List Pixel) (bits : List Nat) :
    (embedPixels ps bits).length = ps.length := by
  induction ps, bits using embedPixels.induct <;> simp_all [embedPixels]

theorem alphas_embedPixels (ps : List Pixel) (bits : List Nat) :
    alphas (embedPixels ps bits) = alphas ps := by
  induction ps, bits using embedPixels.induct <;> simp_all [embedPixels, alphas]

theorem readBits_length (ps : List Pixel) : (readBits ps).length = 3 * ps.length := by
  induction ps with
  | nil => rfl
  | cons p ps ih =>
    obtain ⟨r, g, bl, a⟩ := p
    simp [readBits, ih]
    ring

theorem readBits_embedPixels (ps : List Pixel) (bits : List Nat)
    (hb : ∀ b ∈ bits, b < 2) (hlen : bits.length ≤ 3 * ps.length) :
    readBits (embedPixels ps bits) = bits ++ (readBits ps).drop bits.length := by
  induction ps, bits using embedPixels.induct with
  | case1 ps => simp [embedPixels]
  | case2 b bs =>
    simp only [List.length_nil, Nat.mul_zero, Nat.le_zero, List.length_cons] at hlen
    omega
  | case3 r g bl a ps b0 =>
    have h0 : b0 < 2 := hb b0 (by simp)
    simp [embedPixels, readBits, setLsb_and_one _ _ h0]
  | case4 r g bl a ps b0 b1 =>
    have h0 : b0 < 2 := hb b0 (by simp)
    have h1 : b1 < 2 := hb b1 (by simp)
    simp [embedPixels, readBits, setLsb_and_one _ _ h0, setLsb_and_one _ _ h1]
  | case5 r g bl a ps b0 b1 b2 rest ih =>
    have h0 : b0 < 2 := hb b0 (by simp)
    have h1 : b1 < 2 := hb b1 (by simp)
    have h2 : b2 < 2 := hb b2 (by simp)
    have hlen' : rest.length ≤ 3 * ps.length := by
      simp only [List.length_cons, readBits_length] at hlen ⊢
      omega
    have hb' : ∀ b ∈ rest, b < 2 := fun b h => hb b (by simp [h])
    simp [embedPixels, readBits, setLsb_and_one _ _ h0, setLsb_and_one _ _ h1,
      setLsb_and_one _ _ h2, ih hb' hlen']

theorem channels_embedPixels (ps : List Pixel) (bits : List Nat)
    (hlen : bits.length ≤ 3 * ps.length) :
    channels (embedPixels ps bits)
      = List.zipWith setLsb ((channels ps).take bits.length) bits
        ++ (channels ps).drop bits.length := by
  induction ps, bits using embedPixels.induct with
  | case1 ps => simp [embedPixels]
  | case2 b bs =>
    simp only [List.length_nil, Nat.mul_zero, Nat.le_zero, List.length_cons] at hlen
    omega
  | case3 r g bl a ps b0 => simp [embedPixels, channels]
  | case4 r g bl a ps b0 b1 => simp [embedPixels, channels]
  | case5 r g bl a ps b0 b1 b2 rest ih =>
    have hlen' : rest.length ≤ 3 * ps.length := by
      simp only [List.length_cons] at hlen
      omega
    simp [embedPixels, channels, ih hlen']

theorem channels_length (ps : List Pixel) : (channels ps).length = 3 * ps.length := by
  induction ps with
  | nil => rfl
  | cons p ps ih =>
    obtain ⟨r, g, bl, a⟩ := p
    simp [channels, ih]
    ring

/-! ### The UTF-8 codec model -/

theorem utf8EncodeChar_lt_256 (c : Nat) (hc : c < 0x110000) :
    ∀ b ∈ utf8EncodeChar c, b < 256 := by
  intro b hb
  unfold utf8EncodeChar at hb
  split at hb
  · simp only [List.mem_cons, List.not_mem_nil, or_false] at hb
    omega
  · split at hb
    · simp only [List.mem_cons, List.not_mem_nil, or_false] at hb
      rcases hb with h | h <;> omega
    · split at hb
      · simp only [List.mem_cons, List.not_mem_nil, or_false] at hb
        rcases hb with h | h | h <;> omega
      · simp only [List.mem_cons, List.not_mem_nil, or_false] at hb
        rcases hb with h | h | h | h <;> omega

theorem utf8EncodeChar_ne_nil (c : Nat) : utf8EncodeChar c ≠ [] := by
  unfold utf8EncodeChar
  split
  · simp
  · split
    · simp
    · split <;> simp

theorem utf8Decode_encodeChar (c : Nat) (hc : ScalarCP c) (rest : List Nat) :
    utf8Decode (utf8EncodeChar c ++ rest) = (utf8Decode rest).map (c :: ·) := by
  obtain ⟨hmax, hsur⟩ := hc
  unfold utf8Decode
  by_cases h1 : c < 0x80
  · rw [utf8EncodeChar, if_pos h1, List.cons_append, List.nil_append,
      utf8DecodeAux.eq_2, if_pos rfl, if_pos h1]
  · by_cases h2 : c < 0x800
    · rw [utf8EncodeChar, if_neg h1, if_pos h2]
      simp only [List.cons_append, List.nil_append]
      rw [utf8DecodeAux.eq_2, if_pos rfl,
        if_neg (show ¬(0xC0 + c / 64 < 0x80) by omega),
        if_neg (show ¬(0xC0 + c / 64 < 0xC2) by omega),
        if_pos (show 0xC0 + c / 64 ≤ 0xDF by omega)]
      rw [utf8DecodeAux.eq_2, if_neg (show ¬(1 : Nat) = 0 by omega),
        if_pos (show 0x80 ≤ 0x80 + c % 64 ∧ 0x80 + c % 64 ≤ 0xBF by omega), if_pos rfl]
      have hv : (0xC0 + c / 64 - 0xC0) * 64 + (0x80 + c % 64 - 0x80) = c := by omega
      rw [hv]
    · by_cases h3 : c < 0x10000
      · rw [utf8EncodeChar, if_neg h1, if_neg h2, if_pos h3]
        simp only [List.cons_append, List.nil_append]
        have hcont : lead3Lo (0xE0 + c / 4096) ≤ 0x80 + c / 64 % 64
            ∧ 0x80 + c / 64 % 64 ≤ lead3Hi (0xE0 + c / 4096) := by
          unfold lead3Lo lead3Hi
          split_ifs <;> omega
        rw [utf8DecodeAux.eq_2, if_pos rfl,
          if_neg (show ¬(0xE0 + c / 4096 < 0x80) by omega),
          if_neg (show ¬(0xE0 + c / 4096 < 0xC2) by omega),
          if_neg (show ¬(0xE0 + c / 4096 ≤ 0xDF) by omega),
          if_pos (show 0xE0 + c / 4096 ≤ 0xEF by omega)]
        rw [utf8DecodeAux.eq_2, if_neg (show ¬(2 : Nat) = 0 by omega),
          if_pos hcont, if_neg (show ¬(2 : Nat) = 1 by omega),
          show (2 : Nat) - 1 = 1 from rfl]
        rw [utf8DecodeAux.eq_2, if_neg (show ¬(1 : Nat) = 0 by omega),
          if_pos (show 0x80 ≤ 0x80 + c % 64 ∧ 0x80 + c % 64 ≤ 0xBF by omega), if_pos rfl]
        have hv : ((0xE0 + c / 4096 - 0xE0) * 64 + (0x80 + c / 64 % 64 - 0x80)) * 64
            + (0x80 + c % 64 - 0x80) = c := by omega
        rw [hv]
      · rw [utf8EncodeChar, if_neg h1, if_neg h2, if_neg h3]
        simp only [List.cons_append, List.nil_append]
        have hcont : lead4Lo (0xF0 + c / 0x40000) ≤ 0x80 + c / 4096 % 64
            ∧ 0x80 + c / 4096 % 64 ≤ lead4Hi (0xF0 + c / 0x40000) := by
          unfold lead4Lo lead4Hi
          split_ifs <;> omega
        rw [utf8DecodeAux.eq_2, if_pos rfl,
          if_neg (show ¬(0xF0 + c / 0x40000 < 0x80) by omega),
          if_neg (show ¬(0xF0 + c / 0x40000 < 0xC2) by omega),
          if_neg (show ¬(0xF0 + c / 0x40000 ≤ 0xDF) by omega),
          if_neg (show ¬(0xF0 + c / 0x40000 ≤ 0xEF) by omega),
          if_pos (show 0xF0 + c / 0x40000 ≤ 0xF4 by omega)]
        rw [utf8DecodeAux.eq_2, if_neg (show ¬(3 : Nat) = 0 by omega),
          if_pos hcont, if_neg (show ¬(3 : Nat) = 1 by omega),
          show (3 : Nat) - 1 = 2 from rfl]
        rw [utf8DecodeAux.eq_2, if_neg (show ¬(2 : Nat) = 0 by omega),
          if_pos (show 0x80 ≤ 0x80 + c / 64 % 64 ∧ 0x80 + c / 64 % 64 ≤ 0xBF by omega),
          if_neg (show ¬(2 : Nat) = 1 by omega), show (2 : Nat) - 1 = 1 from rfl]
        rw [utf8DecodeAux.eq_2, if_neg (show ¬(1 : Nat) = 0 by omega),
          if_pos (show 0x80 ≤ 0x80 + c % 64 ∧ 0x80 + c % 64 ≤ 0xBF by omega), if_pos rfl]
        have hv : (((0xF0 + c / 0x40000 - 0xF0) * 64 + (0x80 + c / 4096 % 64 - 0x80)) * 64
            + (0x80 + c / 64 % 64 - 0x80)) * 64 + (0x80 + c % 64 - 0x80) = c := by omega
        rw [hv]

theorem utf8Decode_encode (s : List Nat) (hs : ∀ c ∈ s, ScalarCP c) :
    utf8Decode (utf8Encode s) = some s := by
  induction s with
  | nil => rfl
  | cons c cs ih =>
    rw [utf8Encode, utf8Decode_encodeChar c (hs c (List.mem_cons_self c cs)),
      ih (fun x hx => hs x (List.mem_cons_of_mem c hx))]
    rfl

theorem utf8Encode_lt_256 (s : List Nat) (hs : ∀ c ∈ s, ScalarCP c) :
    ∀ b ∈ utf8Encode s, b < 256 := by
  induction s with
  | nil => simp [utf8Encode]
  | cons c cs ih =>
    intro b hb
    rw [utf8Encode, List.mem_append] at hb
    rcases hb with h | h
    · exact utf8EncodeChar_lt_256 c (hs c (List.mem_cons_self c cs)).1 b h
    · exact ih (fun x hx => hs x (List.mem_cons_of_mem c hx)) b h

theorem utf8Encode_ne_nil (s : List Nat) (hs : s ≠ []) : utf8Encode s ≠ [] := by
  cases s with
  | nil => exact absurd rfl hs
  | cons c cs =>
    rw [utf8Encode]
    intro h
    exact utf8EncodeChar_ne_nil c (List.append_eq_nil.mp h).1

/-! ### Composition lemmas for the encode path -/

/-- The stego canvas `_fallback_encode` produces from a cover and the message
bytes, when the capacity check passes. -/
def stegoOf (cover : Canvas) (msgBytes : List Nat) : Canvas :=
  ⟨cover.width, cover.height,
    embedPixels cover.pixels (toBits (HEADER ++ toBytesBE msgBytes.length ++ msgBytes))⟩

theorem payload_length (n : Nat) (B : List Nat) :
    (HEADER ++ toBytesBE n ++ B).length = 9 + B.length := by
  simp [HEADER, toBytesBE]
  omega

theorem fallbackEncode_ok (cover : Canvas) (B : List Nat)
    (hlen : B.length < 2 ^ 32)
    (hcap : (9 + B.length) * 8 ≤ cover.width * cover.height * 3) :
    fallbackEncode cover B = (stegoOf cover B, .ok (stegoOf cover B)) := by
  simp only [fallbackEncode, stegoOf]
  rw [if_neg (by omega), if_neg (by rw [toBits_length, payload_length]; omega)]

theorem fallbackEncode_tooLarge (cover : Canvas) (B : List Nat)
    (hlen : B.length < 2 ^ 32)
    (hcap : cover.width * cover.height * 3 < (9 + B.length) * 8) :
    fallbackEncode cover B = (cover, .error .tooLarge) := by
  simp only [fallbackEncode]
  rw [if_neg (by omega), if_pos (by rw [toBits_length, payload_length]; omega)]

theorem isPrefixOf_append_self (l rest : List Nat) : l.isPrefixOf (l ++ rest) = true := by
  induction l with
  | nil => simp [List.isPrefixOf]
  | cons a as ih => simp [List.isPrefixOf, ih]

theorem zipWith_setLsb_eq (l bits : List Nat) (hb : ∀ b ∈ bits, b < 2) :
    List.zipWith setLsb l bits
      = List.zipWith (fun c bit => 2 * (c / 2) + bit) l bits := by
  induction l generalizing bits with
  | nil => simp
  | cons c cs ih =>
    cases bits with
    | nil => simp
    | cons b bs =>
      rw [List.zipWith_cons_cons, List.zipWith_cons_cons,
        setLsb_eq c b (hb b (List.mem_cons_self b bs)),
        ih bs (fun x hx => hb x (List.mem_cons_of_mem b hx))]

/-! ### Composition lemmas for the decode path -/

theorem header_toBits_length (n : Nat) :
    (toBits HEADER ++ toBits (toBytesBE n)).length = 72 := by
  rw [List.length_append, toBits_length, toBits_length]
  rfl

theorem canvasBits_stegoOf (cover : Canvas) (B : List Nat)
    (hwf : cover.pixels.length = cover.width * cover.height)
    (hcap : (9 + B.length) * 8 ≤ cover.width * cover.height * 3) :
    canvasBits (stegoOf cover B)
      = (toBits HEADER ++ toBits (toBytesBE B.length))
        ++ (toBits B
          ++ (readBits cover.pixels).drop
              (toBits (HEADER ++ toBytesBE B.length ++ B)).length) := by
  unfold canvasBits stegoOf
  rw [readBits_embedPixels _ _ (toBits_lt_two _)
    (by rw [toBits_length, payload_length, hwf]; omega)]
  rw [toBits_append, toBits_append, List.append_assoc]

theorem headerBytes_stegoOf (cover : Canvas) (B : List Nat)
    (hwf : cover.pixels.length = cover.width * cover.height)
    (hcap : (9 + B.length) * 8 ≤ cover.width * cover.height * 3) :
    headerBytes (stegoOf cover B) = HEADER ++ toBytesBE B.length := by
  unfold headerBytes
  rw [canvasBits_stegoOf cover B hwf hcap,
    show headerLenBits = (toBits HEADER ++ toBits (toBytesBE B.length)).length from
      (header_toBits_length B.length).symm,
    List.take_left, ← toBits_append]
  refine fromBits_toBits _ ?_
  intro b hb
  rw [List.mem_append] at hb
  rcases hb with h | h
  · exact HEADER_lt_256 b h
  · exact toBytesBE_lt_256 _ b h

theorem declaredLen_stegoOf (cover : Canvas) (B : List Nat)
    (hwf : cover.pixels.length = cover.width * cover.height)
    (hlen : B.length < 2 ^ 32)
    (hcap : (9 + B.length) * 8 ≤ cover.width * cover.height * 3) :
    declaredLen (stegoOf cover B) = B.length := by
  unfold declaredLen
  rw [headerBytes_stegoOf cover B hwf hcap,
    show HEADER.length = (HEADER : List Nat).length from rfl, List.drop_left,
    show (4 : Nat) = (toBytesBE B.length).length from rfl, List.take_length,
    fromBytesBE_toBytesBE _ hlen]

theorem bodyBytes_stegoOf (cover : Canvas) (B : List Nat)
    (hwf : cover.pixels.length = cover.width * cover.height)
    (hB : ∀ b ∈ B, b < 256) (hlen : B.length < 2 ^ 32)
    (hcap : (9 + B.length) * 8 ≤ cover.width * cover.height * 3) :
    bodyBytes (stegoOf cover B) = B := by
  unfold bodyBytes
  rw [declaredLen_stegoOf cover B hwf hlen hcap,
    canvasBits_stegoOf cover B hwf hcap,
    show headerLenBits = (toBits HEADER ++ toBits (toBytesBE B.length)).length from
      (header_toBits_length B.length).symm,
    List.drop_left,
    show B.length * 8 = (toBits B).length from by rw [toBits_length]; ring,
    List.take_left]
  exact fromBits_toBits B hB

theorem fallbackDecode_stegoOf (cover : Canvas) (msg : List Nat)
    (hscalar : ∀ ch ∈ msg, ScalarCP ch)
    (hwf : cover.pixels.length = cover.width * cover.height)
    (hlen : (utf8Encode msg).length < 2 ^ 32)
    (hcap : (9 + (utf8Encode msg).length) * 8 ≤ cover.width * cover.height * 3) :
    fallbackDecode (stegoOf cover (utf8Encode msg)) = msg := by
  unfold fallbackDecode
  rw [headerBytes_stegoOf cover _ hwf hcap,
    bodyBytes_stegoOf cover _ hwf (utf8Encode_lt_256 msg hscalar) hlen hcap,
    if_pos (isPrefixOf_append_self HEADER (toBytesBE (utf8Encode msg).length)),
    utf8Decode_encode msg hscalar]

theorem decode_stegoOf (cover : Canvas) (msg : List Nat)
    (hne : msg ≠ []) (hscalar : ∀ ch ∈ msg, ScalarCP ch)
    (hwf : cover.pixels.length = cover.width * cover.height)
    (hlen : (utf8Encode msg).length < 2 ^ 32)
    (hcap : (9 + (utf8Encode msg).length) * 8 ≤ cover.width * cover.height * 3) :
    decode_message_from_image (stegoOf cover (utf8Encode msg)) = .ok msg := by
  unfold decode_message_from_image
  rw [fallbackDecode_stegoOf cover msg hscalar hwf hlen hcap, if_neg hne]

/-- A 27×1 carrier whose 81 LSBs hold a frame with MARKER, declared length
2 but only one body byte (0x41, `"A"`) physically present: a truncated
carrier in the sense of the spec's `parse` contract. -/
def c2Canvas : Canvas :=
  ⟨27, 1, bitsToPixels (toBits (HEADER ++ toBytesBE 2 ++ [0x41]) ++ [0])⟩

/-! ### Claim theorems -/

/-- Claim C3: the capacity of a canvas is `width * height * 3` bits; for a
non-empty message (of byte length that fits the 4-byte length field),
embed succeeds whenever the frame bit-stream length `(9 + len(bytes)) * 8`
is at most the capacity (in particular when it is exactly equal), and fails
with the `CapacityExceeded` error whenever it exceeds the capacity even by
one bit, returning with the canvas state unchanged. -/
theorem c3_capacity_boundary (cover : Canvas) (msg : List Nat) (p : PyPath)
    (hne : msg ≠ []) (hlen : (utf8Encode msg).length < 2 ^ 32) :
    ((9 + (utf8Encode msg).length) * 8 ≤ cover.width * cover.height * 3 →
      (encode_message_to_image cover msg p).2
        = .ok ((encode_message_to_image cover msg p).1, ensure_png p))
    ∧ (cover.width * cover.height * 3 < (9 + (utf8Encode msg).length) * 8 →
      encode_message_to_image cover msg p = (cover, .error .tooLarge)) := by
  constructor
  · intro hcap
    have he : encode_message_to_image cover msg p
        = (stegoOf cover (utf8Encode msg),
           .ok (stegoOf cover (utf8Encode msg), ensure_png p)) := by
      simp only [encode_message_to_image]
      rw [if_neg hne, fallbackEncode_ok cover _ hlen hcap]
    rw [he]
  · intro hcap
    simp only [encode_message_to_image]
    rw [if_neg hne, fallbackEncode_tooLarge cover _ hlen hcap]

/-- Witness for C3: an 8×4 canvas has capacity 96 bits; the 3-byte message
"ABC" frames to exactly 96 bits and embeds, the 4-byte "ABCD" frames to 104
bits and fails with the capacity error, canvas unchanged. -/
theorem c3_capacity_boundary_witness :
    ((9 + (utf8Encode [65, 66, 67]).length) * 8 = 8 * 4 * 3
      ∧ (encode_message_to_image ⟨8, 4, List.replicate 32 (0, 0, 0, 0)⟩
            [65, 66, 67] ⟨"s", ".png"⟩).2
        = .ok ((encode_message_to_image ⟨8, 4, List.replicate 32 (0, 0, 0, 0)⟩
            [65, 66, 67] ⟨"s", ".png"⟩).1, ensure_png ⟨"s", ".png"⟩))
    ∧ (8 * 4 * 3 < (9 + (utf8Encode [65, 66, 67, 68]).length) * 8
      ∧ encode_message_to_image ⟨8, 4, List.replicate 32 (0, 0, 0, 0)⟩
            [65, 66, 67, 68] ⟨"s", ".png"⟩
        = (⟨8, 4, List.replicate 32 (0, 0, 0, 0)⟩, .error .tooLarge)) :=
  ⟨⟨by decide, (c3_capacity_boundary _ _ _ (by decide) (by decide)).1 (by decide)⟩,
   ⟨by decide, (c3_capacity_boundary _ _ _ (by decide) (by decide)).2 (by decide)⟩⟩

/-- Claim C4: `_fallback_encode` performs its capacity check before any pixel
write, so whenever it raises (in particular with `CapacityExceeded`) the
in-memory image state is exactly the unmodified cover: embedding is atomic
and never partial. -/
theorem c4_embed_atomic (cover : Canvas) (msgBytes : List Nat) (e : StegError)
    (h : (fallbackEncode cover msgBytes).2 = .error e) :
    (fallbackEncode cover msgBytes).1 = cover := by
  simp only [fallbackEncode] at h ⊢
  split_ifs at h ⊢ <;> simp_all

/-- Witness for C4 at a 1×1 cover (capacity 3 bits) and the message byte
`0x41`, whose 80-bit frame overflows the capacity. -/
theorem c4_embed_atomic_witness :
    (fallbackEncode ⟨1, 1, [(2, 3, 4, 5)]⟩ [65]).2 = .error .tooLarge
    ∧ (fallbackEncode ⟨1, 1, [(2, 3, 4, 5)]⟩ [65]).1 = ⟨1, 1, [(2, 3, 4, 5)]⟩ :=
  ⟨by decide, c4_embed_atomic _ _ .tooLarge (by decide)⟩

/-- Claim C5: the pixel writer consumes bits in row-major pixel order with
channels in fixed order red, green, blue; it preserves the pixel count,
never touches the alpha channel, replaces exactly the low-order bit of each
written channel (the written value is `2 * (old / 2) + bit`, so all higher
bits survive), and leaves every channel beyond the stream's remaining bits
— including all later pixels — untouched. -/
theorem c5_writer_effect (ps : List Pixel) (bits : List Nat)
    (hb : ∀ b ∈ bits, b < 2) (hlen : bits.length ≤ 3 * ps.length) :
    (embedPixels ps bits).length = ps.length
    ∧ alphas (embedPixels ps bits) = alphas ps
    ∧ channels (embedPixels ps bits)
        = List.zipWith (fun c bit => 2 * (c / 2) + bit)
            ((channels ps).take bits.length) bits
          ++ (channels ps).drop bits.length := by
  refine ⟨embedPixels_length ps bits, alphas_embedPixels ps bits, ?_⟩
  rw [channels_embedPixels ps bits hlen, zipWith_setLsb_eq _ _ hb]

/-- Witness for C5 on two pixels and a 4-bit stream. -/
theorem c5_writer_effect_witness :
    ((∀ b ∈ [1, 0, 1, 1], b < 2)
      ∧ [1, 0, 1, 1].length ≤ 3 * ([(3, 4, 5, 6), (7, 8, 9, 10)] : List Pixel).length)
    ∧ (embedPixels [(3, 4, 5, 6), (7, 8, 9, 10)] [1, 0, 1, 1]).length
        = ([(3, 4, 5, 6), (7, 8, 9, 10)] : List Pixel).length
    ∧ alphas (embedPixels [(3, 4, 5, 6), (7, 8, 9, 10)] [1, 0, 1, 1])
        = alphas [(3, 4, 5, 6), (7, 8, 9, 10)]
    ∧ channels (embedPixels [(3, 4, 5, 6), (7, 8, 9, 10)] [1, 0, 1, 1])
        = List.zipWith (fun c bit => 2 * (c / 2) + bit)
            ((channels [(3, 4, 5, 6), (7, 8, 9, 10)]).take [1, 0, 1, 1].length)
            [1, 0, 1, 1]
          ++ (channels [(3, 4, 5, 6), (7, 8, 9, 10)]).drop [1, 0, 1, 1].length :=
  ⟨⟨by decide, by decide⟩,
   (c5_writer_effect _ _ (by decide) (by decide)).1,
   (c5_writer_effect _ _ (by decide) (by decide)).2.1,
   (c5_writer_effect _ _ (by decide) (by decide)).2.2⟩

/-- Claim C6: `_to_bits` emits 8 bits per byte (so the stream has length
`8 * len(data)`, MSB first per byte), `_from_bits` regroups 8 bits at a time
discarding a trailing group of fewer than 8 bits, and the two compose to the
identity on byte sequences — also when up to 7 junk bits trail the stream. -/
theorem c6_bit_codec (data extra : List Nat)
    (hdata : ∀ b ∈ data, b < 256) (hextra : extra.length < 8) :
    (toBits data).length = 8 * data.length
    ∧ fromBits (toBits data) = data
    ∧ fromBits (toBits data ++ extra) = data := by
  refine ⟨toBits_length data, fromBits_toBits data hdata, ?_⟩
  rw [fromBits_toBits_append, map_mod_256_eq_self data hdata,
    fromBits_short extra hextra, List.append_nil]

/-- Witness for C6 on the bytes `[171, 5]` with 3 junk bits appended. -/
theorem c6_bit_codec_witness :
    ((∀ b ∈ [171, 5], b < 256) ∧ ([1, 0, 1] : List Nat).length < 8)
    ∧ (toBits [171, 5]).length = 8 * ([171, 5] : List Nat).length
    ∧ fromBits (toBits [171, 5]) = [171, 5]
    ∧ fromBits (toBits [171, 5] ++ [1, 0, 1]) = [171, 5] :=
  ⟨⟨by decide, by decide⟩,
   (c6_bit_codec [171, 5] [1, 0, 1] (by decide) (by decide)).1,
   (c6_bit_codec [171, 5] [1, 0, 1] (by decide) (by decide)).2.1,
   (c6_bit_codec [171, 5] [1, 0, 1] (by decide) (by decide)).2.2⟩

/-- Counterexample to claim C7 as stated: on the 0×0 canvas with the
non-empty message "A", embed fails with the `CapacityExceeded`
("message too large") error, not with the `InvalidInput` error the claim
predicts — the code has no dedicated check for zero canvas dimensions. -/
theorem c7_counterexample :
    encode_message_to_image ⟨0, 0, []⟩ [65] ⟨"out", ".png"⟩
      = (⟨0, 0, []⟩, .error .tooLarge)
    ∧ StegError.tooLarge ≠ StegError.emptyMessage := by decide

/-- Claim C7 as amended: for every canvas with zero width or zero height and
every non-empty message (with UTF-8 byte length below `2^32`), embed fails —
before any mutation, the canvas state is returned unchanged — but with the
`CapacityExceeded` error (capacity 0 is always exceeded), since the code has
no `InvalidInput` check on canvas dimensions. -/
theorem c7_zero_dims (cover : Canvas) (msg : List Nat) (p : PyPath)
    (hdim : cover.width = 0 ∨ cover.height = 0) (hne : msg ≠ [])
    (hlen : (utf8Encode msg).length < 2 ^ 32) :
    encode_message_to_image cover msg p = (cover, .error .tooLarge) := by
  simp only [encode_message_to_image]
  rw [if_neg hne, fallbackEncode_tooLarge cover _ hlen
    (by rcases hdim with h | h <;> rw [h] <;> omega)]

/-- Witness for C7 (amended) at a 0×5 canvas and the message "B". -/
theorem c7_zero_dims_witness :
    ((⟨0, 5, []⟩ : Canvas).width = 0 ∨ (⟨0, 5, []⟩ : Canvas).height = 0)
    ∧ encode_message_to_image ⟨0, 5, []⟩ [66] ⟨"x", ".jpg"⟩
        = (⟨0, 5, []⟩, .error .tooLarge) :=
  ⟨Or.inl rfl, c7_zero_dims _ _ _ (Or.inl rfl) (by decide) (by decide)⟩

/-- Claim C8: embedding the empty message fails with the `InvalidInput`
("Message must not be empty") error for every canvas and output path,
before any mutation: the canvas state is returned unchanged. -/
theorem c8_empty_message (cover : Canvas) (p : PyPath) :
    encode_message_to_image cover [] p = (cover, .error .emptyMessage) := rfl

/-- Claim C1 (round-trip): for every well-formed canvas whose capacity
`width * height * 3` bits is at least the frame bit-stream length
`len(frame(M)) * 8 = (9 + len(utf8(M))) * 8`, and every non-empty message
`M` (a string of Unicode scalar values whose UTF-8 encoding fits the 4-byte
length field), embed succeeds and extract on the produced stego canvas
returns exactly `M`. -/
theorem c1_roundtrip (cover : Canvas) (msg : List Nat) (p : PyPath)
    (hne : msg ≠ []) (hscalar : ∀ ch ∈ msg, ScalarCP ch)
    (hwf : cover.pixels.length = cover.width * cover.height)
    (hlen : (utf8Encode msg).length < 2 ^ 32)
    (hcap : (9 + (utf8Encode msg).length) * 8 ≤ cover.width * cover.height * 3) :
    (encode_message_to_image cover msg p).2
      = .ok ((encode_message_to_image cover msg p).1, ensure_png p)
    ∧ decode_message_from_image (encode_message_to_image cover msg p).1
      = .ok msg := by
  have he : encode_message_to_image cover msg p
      = (stegoOf cover (utf8Encode msg),
         .ok (stegoOf cover (utf8Encode msg), ensure_png p)) := by
    simp only [encode_message_to_image]
    rw [if_neg hne, fallbackEncode_ok cover _ hlen hcap]
  rw [he]
  exact ⟨rfl, decode_stegoOf cover msg hne hscalar hwf hlen hcap⟩

/-- Witness for C1 at a 6×5 canvas (capacity 90 bits) and the message "A"
(frame 80 bits). -/
theorem c1_roundtrip_witness :
    (([65] : List Nat) ≠ []
      ∧ (∀ ch ∈ [65], ScalarCP ch)
      ∧ (⟨6, 5, List.replicate 30 (7, 10, 255, 3)⟩ : Canvas).pixels.length = 6 * 5
      ∧ (9 + (utf8Encode [65]).length) * 8 ≤ 6 * 5 * 3)
    ∧ (encode_message_to_image ⟨6, 5, List.replicate 30 (7, 10, 255, 3)⟩
          [65] ⟨"o", ".txt"⟩).2
      = .ok ((encode_message_to_image ⟨6, 5, List.replicate 30 (7, 10, 255, 3)⟩
          [65] ⟨"o", ".txt"⟩).1, ensure_png ⟨"o", ".txt"⟩)
    ∧ decode_message_from_image
        (encode_message_to_image ⟨6, 5, List.replicate 30 (7, 10, 255, 3)⟩
          [65] ⟨"o", ".txt"⟩).1
      = .ok [65] :=
  ⟨⟨by decide, by decide, by decide, by decide⟩,
   (c1_roundtrip _ _ _ (by decide) (by decide) (by decide) (by decide) (by decide)).1,
   (c1_roundtrip _ _ _ (by decide) (by decide) (by decide) (by decide) (by decide)).2⟩

/-- Counterexample to claim C2 as stated: `c2Canvas` declares a body length
of 2 bytes but physically carries only 1 body byte (a truncated carrier), so
by the claim extract should fail with `NoMessageFound`; instead the code
slices only the available bits, drops the partial byte, decodes the one
byte `0x41` and happily returns "A". -/
theorem c2_counterexample :
    declaredLen c2Canvas = 2
    ∧ (bodyBytes c2Canvas).length = 1
    ∧ decode_message_from_image c2Canvas = .ok [65] := by decide

/-- Claim C2 as amended: extract fails with `NoMessageFound` exactly when the
byte stream read from the canvas does not start with MARKER, or when the
BODY bytes actually available (the declared count, truncated to what the
carrier holds) are not valid UTF-8, or decode to the empty string (which
includes every frame with declared length 0); in every other case it returns
the UTF-8 decoding of those available BODY bytes — which, on a truncated
carrier, can be a proper prefix of the declared BODY rather than an error. -/
theorem c2_extract_characterization (stego : Canvas) :
    (decode_message_from_image stego = .error .noMessage ↔
      (HEADER.isPrefixOf (headerBytes stego) = false
        ∨ utf8Decode (bodyBytes stego) = none
        ∨ utf8Decode (bodyBytes stego) = some []))
    ∧ (∀ msg, decode_message_from_image stego = .ok msg ↔
        (HEADER.isPrefixOf (headerBytes stego) = true ∧ msg ≠ []
          ∧ utf8Decode (bodyBytes stego) = some msg)) := by
  have hd : decode_message_from_image stego
      = if fallbackDecode stego = [] then Except.error StegError.noMessage
        else Except.ok (fallbackDecode stego) := rfl
  cases hpre : HEADER.isPrefixOf (headerBytes stego) with
  | false =>
    have hfd : fallbackDecode stego = [] := by
      simp [fallbackDecode, hpre]
    rw [hd, hfd]
    constructor
    · simp
    · intro msg
      simp
  | true =>
    cases hdec : utf8Decode (bodyBytes stego) with
    | none =>
      have hfd : fallbackDecode stego = [] := by
        simp [fallbackDecode, hpre, hdec]
      rw [hd, hfd]
      constructor
      · simp [hdec]
      · intro msg
        simp [hdec]
    | some s =>
      have hfd : fallbackDecode stego = s := by
        simp [fallbackDecode, hpre, hdec]
      rw [hd, hfd]
      constructor
      · by_cases hs : s = []
        · subst hs
          rw [if_pos rfl]
          simp
        · rw [if_neg hs]
          constructor
          · intro h
            exact absurd h (by simp)
          · rintro (h | h | h)
            · exact absurd h (by simp)
            · exact absurd h (by simp)
            · exact absurd (Option.some.inj h) hs
      · intro msg
        by_cases hs : s = []
        · subst hs
          rw [if_pos rfl]
          constructor
          · intro h
            exact absurd h (by simp)
          · rintro ⟨-, hmne, hmsg⟩
            exact absurd (Option.some.inj hmsg).symm hmne
        · rw [if_neg hs]
          constructor
          · intro h
            have hsm : s = msg := Except.ok.inj h
            subst hsm
            exact ⟨rfl, hs, rfl⟩
          · rintro ⟨-, -, hmsg⟩
            rw [Option.some.inj hmsg]

/-- Witness for C2 (amended), instantiating the success characterization on
the truncated carrier `c2Canvas`. -/
theorem c2_extract_characterization_witness :
    decode_message_from_image c2Canvas = .ok [65] :=
  ((c2_extract_characterization c2Canvas).2 [65]).mpr
    ⟨by decide, by decide, by decide⟩

/-- Claim C9: extract never returns an empty message — a carrier with a valid
MARKER but declared length 0 and a carrier whose body bytes are not valid
UTF-8 both raise the `NoMessageFound` error rather than returning the empty
or raw body. -/
theorem c9_no_empty_extract (stego : Canvas) :
    (∀ msg, decode_message_from_image stego = .ok msg → msg ≠ [])
    ∧ (declaredLen stego = 0 →
        decode_message_from_image stego = .error .noMessage)
    ∧ (utf8Decode (bodyBytes stego) = none →
        decode_message_from_image stego = .error .noMessage) := by
  refine ⟨?_, ?_, ?_⟩
  · intro msg h
    simp only [decode_message_from_image] at h
    by_cases hm : fallbackDecode stego = []
    · rw [if_pos hm] at h
      exact absurd h (by simp)
    · rw [if_neg hm] at h
      intro he
      apply hm
      cases h
      exact he
  · intro h0
    have hbody : bodyBytes stego = [] := by
      unfold bodyBytes
      rw [h0]
      simp [fromBits, fromBitsAux]
    have hfd : fallbackDecode stego = [] := by
      unfold fallbackDecode
      rw [hbody]
      by_cases hp : HEADER.isPrefixOf (headerBytes stego) = true
      · rw [if_pos hp]
        rfl
      · rw [if_neg hp]
    simp [decode_message_from_image, hfd]
  · intro hdec
    have hfd : fallbackDecode stego = [] := by
      unfold fallbackDecode
      rw [hdec]
      by_cases hp : HEADER.isPrefixOf (headerBytes stego) = true
      · rw [if_pos hp]
      · rw [if_neg hp]
    simp [decode_message_from_image, hfd]

/-- Witness for C9: a blank 4×2 canvas parses to declared length 0 and
extract raises the no-message error. -/
theorem c9_no_empty_extract_witness :
    declaredLen ⟨4, 2, List.replicate 8 (0, 0, 0, 255)⟩ = 0
    ∧ decode_message_from_image ⟨4, 2, List.replicate 8 (0, 0, 0, 255)⟩
        = .error .noMessage :=
  ⟨by decide, (c9_no_empty_extract _).2.1 (by decide)⟩

/-- Claim C10: whenever embed succeeds it writes to and returns the path
`ensure_png(output_path)`: a path whose extension is `.png` up to case — a
suffix other than `.png` (case-insensitively) is silently replaced by
`.png`, and a path already ending in `.png` (any case) is returned
unchanged, so a caller's different extension is never honoured. -/
theorem c10_ensure_png (cover : Canvas) (msg : List Nat) (p : PyPath)
    (stego : Canvas) (out : PyPath)
    (hok : (encode_message_to_image cover msg p).2 = .ok (stego, out)) :
    out = ensure_png p
    ∧ pyLower (ensure_png p).suffix = ".png"
    ∧ (pyLower p.suffix = ".png" → ensure_png p = p)
    ∧ (pyLower p.suffix ≠ ".png" → ensure_png p = ⟨p.stem, ".png"⟩) := by
  have hout : out = ensure_png p := by
    by_cases hm : msg = []
    · rw [hm] at hok
      simp [encode_message_to_image] at hok
    · simp only [encode_message_to_image] at hok
      rw [if_neg hm] at hok
      rcases hfe : fallbackEncode cover (utf8Encode msg) with ⟨img, res⟩
      rw [hfe] at hok
      cases res with
      | ok s =>
        simp only at hok
        cases hok
        rfl
      | error e => simp at hok
  refine ⟨hout, ?_, ?_, ?_⟩
  · unfold ensure_png
    by_cases hs : pyLower p.suffix = ".png"
    · rw [if_neg (fun hne => hne hs)]
      exact hs
    · rw [if_pos hs]
      exact (by decide : pyLower ".png" = ".png")
  · intro hs
    unfold ensure_png
    rw [if_neg (fun hne => hne hs)]
  · intro hs
    unfold ensure_png
    rw [if_pos hs]

/-- Witness for C10 at a 6×5 canvas, message "B" and requested output path
`w.bmp`, which embed rewrites to `w.png`. -/
theorem c10_ensure_png_witness :
    (encode_message_to_image ⟨6, 5, List.replicate 30 (1, 2, 3, 4)⟩
        [66] ⟨"w", ".bmp"⟩).2
      = .ok ((encode_message_to_image ⟨6, 5, List.replicate 30 (1, 2, 3, 4)⟩
          [66] ⟨"w", ".bmp"⟩).1, ensure_png ⟨"w", ".bmp"⟩)
    ∧ ensure_png ⟨"w", ".bmp"⟩ = ⟨"w", ".png"⟩
    ∧ pyLower (ensure_png ⟨"w", ".bmp"⟩).suffix = ".png" :=
  ⟨by decide, by decide,
   (c10_ensure_png ⟨6, 5, List.replicate 30 (1, 2, 3, 4)⟩ [66] ⟨"w", ".bmp"⟩
     (encode_message_to_image ⟨6, 5, List.replicate 30 (1, 2, 3, 4)⟩
        [66] ⟨"w", ".bmp"⟩).1
     (ensure_png ⟨"w", ".bmp"⟩) (by decide)).2.1⟩

end ImageSteg
